import Mathlib

/-!
Verification of the relevance/ranking engine of the arxiv-digest repository.

The definitions below are a shallow embedding of the Python sources
`topic_digest.py` and `arxiv_digest.py`: each Lean definition mirrors the
Python function of the same name.  Python strings are modelled as Lean
`String`, machine-level `str.lower` is modelled by `Char.toLower` (they agree
on ASCII, which is the only case the program exercises for keywords), and
Python's substring test `needle in haystack` is modelled by `containsSub`
on the underlying character lists.
-/

set_option maxRecDepth 100000

namespace ArxivDigest

/-- Python `needle in haystack` for strings: `needle` occurs as a contiguous
substring of `haystack` (over character lists). -/
def containsSub (needle : List Char) : List Char → Bool
  | [] => needle.isEmpty
  | c :: t => needle.isPrefixOf (c :: t) || containsSub needle t

/-- String-level wrapper for `containsSub`. -/
def containsStr (needle haystack : String) : Bool :=
  containsSub needle.data haystack.data

/-- Python `str.lower()` (ASCII case mapping, which is all the program needs:
every keyword and every deny-list hint is ASCII). -/
def strLower (s : String) : String :=
  ⟨s.data.map Char.toLower⟩

/-- One ADS paper record (`docs` entry), restricted to the fields the
ranking engine reads.  A missing JSON field is modelled by `none` / `[]` /
`""` exactly as the Python `paper.get(...)` defaults produce. -/
structure Paper where
  bibcode : Option String := none
  title : List String := []
  author : List String := []
  abstract : String := ""
  pubdate : Option String := none
  orcid_pub : List String := []
  orcid_user : List String := []
  orcid_other : List String := []
  deriving DecidableEq, Repr

/-- Constant `PRIORITY_ORCIDS` from `topic_digest.py`. -/
def PRIORITY_ORCIDS : List String :=
  [ "0009-0007-0488-5685",  -- Ritvik Sai Narayan
    "0000-0001-7493-7419",  -- Melinda Soares-Furtado
    "0009-0001-1360-8547",  -- Julia Sheffler
    "0000-0001-7246-5438" ] -- Andrew Vanderburg

/-- Function `unique_preserve` from `topic_digest.py`: drop duplicates, keeping the
first occurrence of each element. -/
def unique_preserve (seq : List String) : List String :=
  seq.foldl (fun out x => if out.contains x then out else out ++ [x]) []

/-- Raw `TOPIC_KEYWORDS` literal from `topic_digest.py` (before the
`unique_preserve` hygiene pass applied at module load). -/
def TOPIC_KEYWORDS_RAW : List String :=
  [ "open cluster", "MESA", "NGC 188", "m dwarf", "gyrochronology",
    "stellar rotation", "exoplanet age", "planetary engulfment",
    "free-floating planet", "planet engulfment", "engulfment", "young stars",
    "TESS photometry", "stellar age", "rotational evolution", "starspot",
    "chromospheric activity", "Ursa Major", "Hyades", "Upper Sco",
    "gyrochronological", "age estimate", "age constraint", "lithium depletion",
    "lithium abundance", "lithium", "stellar pollution", "chemical abundance",
    "convective zone", "convective envelope", "transiting planet",
    "transiting exoplanet", "high-precision radial velocity",
    "asteroseismology", "Nancy Grace Roman Space Telescope",
    "Roman Space Telescope", "Roman wide field instrument", "Roman photometry",
    "debris disk", "transit survey", "transit search",
    "transit injection-recovery", "completeness", "planet validation",
    "joint transit RV fit", "radial velocity follow-up", "RV mass",
    "mass-radius relation", "occurrence rate", "planet demographics",
    "multi-planet system", "TTV", "Rossiter-McLaughlin", "spin-orbit",
    "obliquity", "transmission spectroscopy", "emission spectroscopy",
    "atmospheric retrieval", "clouds and hazes", "metallicity", "escape",
    "photoevaporation", "core-powered mass loss" ]

/-- Raw `HIGH_VALUE_KEYWORDS` literal from `topic_digest.py`. -/
def HIGH_VALUE_KEYWORDS_RAW : List String :=
  [ "hydrodynamic simulation", "exoplanet discovery", "common envelope",
    "gyrochronology", "planetary engulfment", "planet engulfment",
    "engulfment", "lithium depletion", "lithium abundance", "stellar age",
    "young planet", "stellar pollution", "exoplanet yield" ]

/-- Constant `TOPIC_KEYWORDS` after the module-level `unique_preserve` pass. -/
def TOPIC_KEYWORDS : List String := unique_preserve TOPIC_KEYWORDS_RAW

/-- Constant `HIGH_VALUE_KEYWORDS` after the module-level `unique_preserve` pass. -/
def HIGH_VALUE_KEYWORDS : List String := unique_preserve HIGH_VALUE_KEYWORDS_RAW

/-- Constant `HIGH_VALUE_LOWER`: the set of lower-cased high-value keywords, modelled
as a list used only through membership. -/
def HIGH_VALUE_LOWER : List String := HIGH_VALUE_KEYWORDS.map strLower

/-- Python `set.add`: insert a string into a de-duplicated list if absent. -/
def setInsert (s : List String) (o : String) : List String :=
  if s.contains o then s else s ++ [o]

/-- Function `get_paper_orcids` from `topic_digest.py`: all ORCID values attached to
the record across the three identifier fields, skipping empty values and the
`"-"` alignment placeholder.  The Python `set` is modelled as a list with
`setInsert`. -/
def get_paper_orcids (p : Paper) : List String :=
  (p.orcid_pub ++ p.orcid_user ++ p.orcid_other).foldl
    (fun s o => if o = "" ∨ o = "-" then s else setInsert s o) []

/-- Function `has_priority_author` from `topic_digest.py`:
`bool(get_paper_orcids(paper).intersection(PRIORITY_ORCIDS))`. -/
def has_priority_author (p : Paper) : Bool :=
  (get_paper_orcids p).any (fun o => PRIORITY_ORCIDS.contains o)

/-- Python `if name not in priority_authors: priority_authors.append(name)`. -/
def insertName (acc : List String) (n : String) : List String :=
  if acc.contains n then acc else acc ++ [n]

/-- The inner `for i, orcid in enumerate(orcids)` loop of
`get_priority_authors`: starting at index `i`, append `authors[i]` for each
position whose ORCID is a priority ORCID and which is a valid author index. -/
def addMatches (authors : List String) : Nat → List String → List String → List String
  | _, [], acc => acc
  | i, o :: rest, acc =>
    if PRIORITY_ORCIDS.contains o ∧ i < authors.length then
      addMatches authors (i + 1) rest (insertName acc (authors.getD i ""))
    else
      addMatches authors (i + 1) rest acc

/-- Function `get_priority_authors` from `topic_digest.py`: walk the three identifier
fields in order (`orcid_pub`, `orcid_user`, `orcid_other`) and collect the
author name at each priority-ORCID position that is a valid index into the
author list, de-duplicated by name. -/
def get_priority_authors (p : Paper) : List String :=
  addMatches p.author 0 p.orcid_other
    (addMatches p.author 0 p.orcid_user
      (addMatches p.author 0 p.orcid_pub []))

/-! ### `_parse_pubdate`: model of `datetime.strptime(s, "%Y-%m-%d")`

CPython's `strptime` compiles `%Y-%m-%d` to the regular expression
`(\d\d\d\d)-(1[0-2]|0[1-9]|[1-9])-(3[01]|[12]\d|0[1-9]|[1-9])` (alternatives
tried in this order, with backtracking), requires the whole input to be
consumed, and then `datetime(Y, m, d)` additionally rejects year 0 and a day
beyond the month's length.  `_parse_pubdate` feeds it the first ten
characters of the record's `pubdate` and falls back to `datetime.min`
(year 1, month 1, day 1) on any failure. -/

/-- Numeric value of an ASCII digit. -/
def dval (c : Char) : Nat := c.toNat - 48

/-- Two-character alternatives of the `%m` regex: `1[0-2]` or `0[1-9]`. -/
def month2 (a b : Char) : Option Nat :=
  if a = '1' ∧ '0' ≤ b ∧ b ≤ '2' then some (10 + dval b)
  else if a = '0' ∧ '1' ≤ b ∧ b ≤ '9' then some (dval b)
  else none

/-- One-character alternative of the `%m` regex: `[1-9]`. -/
def month1 (a : Char) : Option Nat :=
  if '1' ≤ a ∧ a ≤ '9' then some (dval a) else none

/-- Two-character alternatives of the `%d` regex: `3[01]`, `[12]\d`, `0[1-9]`. -/
def day2 (a b : Char) : Option Nat :=
  if a = '3' ∧ ('0' ≤ b ∧ b ≤ '1') then some (30 + dval b)
  else if (a = '1' ∨ a = '2') ∧ b.isDigit then some (10 * dval a + dval b)
  else if a = '0' ∧ '1' ≤ b ∧ b ≤ '9' then some (dval b)
  else none

/-- The `%d` field followed by end of input (`strptime` rejects any
unconverted trailing data, so a one-character day may only stand alone). -/
def parseDay : List Char → Option Nat
  | [a] => if '1' ≤ a ∧ a ≤ '9' then some (dval a) else none
  | [a, b] => day2 a b
  | _ => none

/-- Field `%m` then `-` then `%d` then end of input, with the regex's backtracking:
a two-character month is preferred, and if the rest fails after it the
one-character month alternative is retried. -/
def parseMD : List Char → Option (Nat × Nat)
  | a :: b :: rest =>
    let two : Option (Nat × Nat) :=
      match month2 a b, rest with
      | some m, '-' :: rest2 => (parseDay rest2).map (fun d => (m, d))
      | _, _ => none
    (match two with
     | some md => some md
     | none =>
       if b = '-' then
         (month1 a).bind (fun m => (parseDay rest).map (fun d => (m, d)))
       else none)
  | _ => none

/-- Gregorian leap-year rule used by `datetime`. -/
def isLeap (y : Nat) : Bool := y % 4 = 0 ∧ (y % 100 ≠ 0 ∨ y % 400 = 0)

/-- Length of a month as `datetime` validates it. -/
def daysInMonth (y m : Nat) : Nat :=
  if m = 2 then (if isLeap y then 29 else 28)
  else if m = 4 ∨ m = 6 ∨ m = 9 ∨ m = 11 then 30
  else 31

/-- Python `datetime.strptime(s, "%Y-%m-%d")` as an `Option`: `some (y, m, d)` when
it succeeds, `none` when it raises. -/
def strptimeYMD (s : String) : Option (Nat × Nat × Nat) :=
  match s.data with
  | y1 :: y2 :: y3 :: y4 :: '-' :: rest =>
    if y1.isDigit ∧ y2.isDigit ∧ y3.isDigit ∧ y4.isDigit then
      let y := ((dval y1 * 10 + dval y2) * 10 + dval y3) * 10 + dval y4
      (parseMD rest).bind (fun md =>
        if 1 ≤ y ∧ md.2 ≤ daysInMonth y md.1 then some (y, md.1, md.2)
        else none)
    else none
  | _ => none

/-- A calendar date `(y, m, d)` encoded so that `Nat` order is calendar
order (`m ≤ 12 < 100` and `d ≤ 31 < 100`). -/
def encodeDate (y m d : Nat) : Nat := y * 10000 + m * 100 + d

/-- Value `datetime.min` = year 1, month 1, day 1, encoded. -/
def datetime_min : Nat := encodeDate 1 1 1

/-- Function `_parse_pubdate` from `topic_digest.py`: parse the first ten characters
of `pubdate` (empty string when the field is missing), falling back to
`datetime.min` when `strptime` raises.  Total by construction: the
"never raises" clause of the spec is the totality of this function. -/
def parse_pubdate (p : Paper) : Nat :=
  match strptimeYMD ((p.pubdate.getD "").take 10) with
  | some (y, m, d) => encodeDate y m d
  | none => datetime_min

/-! ### Relevance scoring, tiers, sorting, merging -/

/-- Function `calculate_relevance_score` from `topic_digest.py`. -/
def calculate_relevance_score (p : Paper) : Int :=
  let title := strLower (p.title.headD "")
  let abstract := strLower p.abstract
  -- Priority author: moderate bonus
  let score : Int := if has_priority_author p then 25 else 0
  -- High-value keyword matches
  let score := HIGH_VALUE_KEYWORDS.foldl (fun acc kw =>
    let k := strLower kw
    if containsStr k title then acc + 15
    else if containsStr k abstract then acc + 10
    else acc) score
  -- Regular keyword matches (skip ones already in high-value)
  TOPIC_KEYWORDS.foldl (fun acc kw =>
    let k := strLower kw
    if HIGH_VALUE_LOWER.contains k then acc
    else if containsStr k title then acc + 5
    else if containsStr k abstract then acc + 3
    else acc) score

/-- Function `get_relevance_tier` from `topic_digest.py`: (emoji, color, label,
background).  The emoji strings are the exact (mojibake) characters stored
in the source file. -/
def get_relevance_tier (score : Int) : String × String × String × String :=
  if score ≥ 20 then ("ğŸ”´", "#c5050c", "MUST READ", "#fff0f0")
  else if score ≥ 10 then ("ğŸŸ ", "#e67e00", "RELEVANT", "#fff8f0")
  else if score ≥ 2 then ("ğŸŸ¡", "#d4a017", "SOMEWHAT RELEVANT", "#fffef0")
  else ("âšª", "#888888", "GENERAL", "#f9f9f9")

/-- The composite sort key `(pri, relevance score, parsed pubdate)` that
`sort_papers` computes for each record. -/
def keyN (p : Paper) : Int × Int × Int :=
  ((if has_priority_author p then 1 else 0),
   calculate_relevance_score p,
   (parse_pubdate p : Int))

/-- Lexicographic `≤` on key triples — Python's tuple comparison. -/
def lexLe (a b : Int × Int × Int) : Bool :=
  decide (a.1 < b.1) ||
    (decide (a.1 = b.1) &&
      (decide (a.2.1 < b.2.1) ||
        (decide (a.2.1 = b.2.1) && decide (a.2.2 ≤ b.2.2))))

/-- Record `x` may come before `y` in the output of `sort_papers`: descending
comparison of the composite keys. -/
def paperLe (x y : Paper) : Bool := lexLe (keyN y) (keyN x)

/-- Function `sort_papers` from `topic_digest.py`: Python's `list.sort` with
`key=(pri, score, date)` and `reverse=True` is the stable descending sort by
that key, which is exactly `List.mergeSort` with `paperLe` (decorating each
record with its key tuple and projecting back, as the Python code does,
changes nothing because the key is a pure function of the record). -/
def sort_papers (papers : List Paper) : List Paper :=
  papers.mergeSort paperLe

/-- Assignment `by_bib[bc] = p` on an insertion-ordered dict (Python ≥ 3.7
semantics): an existing key keeps its position and gets the new value, a new
key is appended. -/
def insertByKey : List (String × Paper) → String → Paper → List (String × Paper)
  | [], bc, p => [(bc, p)]
  | (k, q) :: t, bc, p =>
    if k = bc then (bc, p) :: t else (k, q) :: insertByKey t bc p

/-- One iteration of the `merge_unique_by_bibcode` loop:
`bc = p.get("bibcode"); if bc: by_bib[bc] = p`.  `if bc:` is false exactly
for a missing/None bibcode and for the empty string. -/
def mstep (acc : List (String × Paper)) (p : Paper) : List (String × Paper) :=
  let bc := p.bibcode.getD ""
  if bc = "" then acc else insertByKey acc bc p

/-- Function `merge_unique_by_bibcode` from `topic_digest.py`:
`list(by_bib.values())` after inserting every record. -/
def merge_unique_by_bibcode (papers : List Paper) : List Paper :=
  (papers.foldl mstep []).map Prod.snd

/-- The merge-and-sort pipeline of `main`: flatten the query batches,
de-duplicate by bibcode, sort. -/
def mergeAndSort (batches : List (List Paper)) : List Paper :=
  sort_papers (merge_unique_by_bibcode batches.flatten)

/-! ### The affiliation matcher of `arxiv_digest.py`

`UW_MADISON_REGEX` is the `re.IGNORECASE` alternation of seven patterns.
We model it with a small Brzozowski-derivative regex engine.  Character
classes are first-order (`CC`) so regular expressions compare decidably and
derivatives can be pruned.  Python's `\b` word boundaries are handled
outside the engine: every pattern starts and ends with `\b` adjacent to a
word character, so a search hit is a match of the boundary-free core
starting after a non-word character (or at the start) and ending before a
non-word character (or at the end); the two interior `\b.*\b` segments of
the institute patterns (between word characters on both sides) are exactly
a non-empty newline-free gap whose first and last characters are non-word
characters. -/

/-- Python (ASCII) `\s`. -/
def isPySpace (c : Char) : Bool :=
  c = ' ' || c = '\t' || c = '\n' || c = '\r' || c = '\x0b' || c = '\x0c'

/-- Python (ASCII) `\w`: letters, digits, underscore. -/
def isWordChar (c : Char) : Bool := c.isAlphanum || c = '_'

/-- Character classes occurring in the UW–Madison patterns. -/
inductive CC where
  /-- case-insensitive literal character (`re.IGNORECASE`) -/
  | litCh (c : Char)
  /-- class `\s` -/
  | ws
  /-- the class `[\s\-–—]` of pattern 1 -/
  | sep
  /-- the class `[\s,\-–—]` of patterns 2–5 -/
  | sepComma
  /-- dot `.` — any character except a newline -/
  | dotAny
  /-- edge of a `\b.*\b` gap: non-word and not a newline -/
  | gapEdge
  deriving DecidableEq

/-- Does character class `c` accept character `x`? -/
def CC.test : CC → Char → Bool
  | litCh c0, x => x.toLower = c0
  | ws, x => isPySpace x
  | sep, x => isPySpace x || x = '-' || x = '–' || x = '—'
  | sepComma, x => isPySpace x || x = ',' || x = '-' || x = '–' || x = '—'
  | dotAny, x => x ≠ '\n'
  | gapEdge, x => !isWordChar x && x ≠ '\n'

/-- Regular expressions over `CC` (star only over a class, which is the only
form the seven patterns use). -/
inductive RE where
  | emp
  | eps
  | cls (c : CC)
  | cat (a b : RE)
  | alt (a b : RE)
  | starC (c : CC)
  deriving DecidableEq

/-- Does `r` accept the empty string? -/
def nullable : RE → Bool
  | .emp => false
  | .eps => true
  | .cls _ => false
  | .cat a b => nullable a && nullable b
  | .alt a b => nullable a || nullable b
  | .starC _ => true

/-- Concatenation with pruning of the `emp`/`eps` units. -/
def catS : RE → RE → RE
  | .emp, _ => .emp
  | .eps, b => b
  | a, b => if b = .emp then .emp else if b = .eps then a else .cat a b

/-- Alternation with pruning of the `emp` unit. -/
def altS : RE → RE → RE
  | .emp, b => b
  | a, b => if b = .emp then a else .alt a b

/-- Brzozowski derivative of `r` by the character `x`. -/
def deriv (r : RE) (x : Char) : RE :=
  match r with
  | .emp => .emp
  | .eps => .emp
  | .cls c => if c.test x then .eps else .emp
  | .cat a b =>
    if nullable a then altS (catS (deriv a x) b) (deriv b x)
    else catS (deriv a x) b
  | .alt a b => altS (deriv a x) (deriv b x)
  | .starC c => if c.test x then .starC c else .emp

/-- Is there a prefix of `cs` accepted by `r` whose end position sits at a
trailing word boundary (end of string or a following non-word character)? -/
def matchHereWB : RE → List Char → Bool
  | .emp, _ => false
  | r, [] => nullable r
  | r, c :: cs => (nullable r && !isWordChar c) || matchHereWB (deriv r c) cs

/-- Scan every start position; `prevOk` records whether the previous
character (if any) was a non-word character, i.e. whether a `\b` holds
before the current position. -/
def searchWBAux (r : RE) : Bool → List Char → Bool
  | prevOk, [] => prevOk && matchHereWB r []
  | prevOk, c :: t =>
    (prevOk && matchHereWB r (c :: t)) || searchWBAux r (!isWordChar c) t

/-- Python `re.search` of a `\b`-delimited pattern whose core is `r` (see the
section comment for why the boundary handling is complete for these
patterns). -/
def regexSearchWB (r : RE) (s : String) : Bool :=
  searchWBAux r true s.data

/-- A case-insensitive literal string. -/
def lit (s : String) : RE :=
  s.data.foldr (fun c r => catS (.cls (.litCh c)) r) .eps

/-- An optional single character, e.g. the regex `\.?`. -/
def optC (c : Char) : RE := .alt (.cls (.litCh c)) .eps

/-- The interior `\b.*\b` of the institute patterns, word characters on both
sides: a non-empty newline-free segment with non-word first and last
characters. -/
def gapRE : RE :=
  .alt (.cls .gapEdge) (.cat (.cls .gapEdge) (.cat (.starC .dotAny) (.cls .gapEdge)))

/-- Pattern 1: `\buw[\s\-–—]*madison\b`. -/
def pat1 : RE := catS (lit "uw") (catS (.starC .sep) (lit "madison"))

/-- Pattern 2: `\buniversity of wisconsin[\s,\-–—]*madison\b`. -/
def pat2 : RE :=
  catS (lit "university of wisconsin") (catS (.starC .sepComma) (lit "madison"))

/-- Pattern 3: `\buniv\.?\s*(of\s*)?wisconsin[\s,\-–—]*madison\b`. -/
def pat3 : RE :=
  catS (lit "univ") (catS (optC '.') (catS (.starC .ws)
    (catS (.alt (catS (lit "of") (.starC .ws)) .eps)
      (catS (lit "wisconsin") (catS (.starC .sepComma) (lit "madison"))))))

/-- Pattern 4: `\bu\.?\s*of\s*w\.?[\s,\-–—]*madison\b`. -/
def pat4 : RE :=
  catS (lit "u") (catS (optC '.') (catS (.starC .ws) (catS (lit "of")
    (catS (.starC .ws) (catS (lit "w") (catS (optC '.')
      (catS (.starC .sepComma) (lit "madison"))))))))

/-- Pattern 5: `\bwisconsin[\s,\-–—]*madison\b`. -/
def pat5 : RE := catS (lit "wisconsin") (catS (.starC .sepComma) (lit "madison"))

/-- Pattern 6: `\bspace science and engineering center\b.*\bmadison\b`. -/
def pat6 : RE :=
  catS (lit "space science and engineering center") (catS gapRE (lit "madison"))

/-- Pattern 7: `\bssec\b.*\bmadison\b`. -/
def pat7 : RE := catS (lit "ssec") (catS gapRE (lit "madison"))

/-- Constant `UW_MADISON_REGEX`: the alternation of the seven patterns. -/
def UW_MADISON_REGEX : RE :=
  altS pat1 (altS pat2 (altS pat3 (altS pat4 (altS pat5 (altS pat6 pat7)))))

/-- Constant `OTHER_UW_CAMPUSES` from `arxiv_digest.py`. -/
def OTHER_UW_CAMPUSES : List String :=
  [ "milwaukee", "green bay", "la crosse", "eau claire", "oshkosh",
    "parkside", "platteville", "river falls", "stevens point",
    "stout", "superior", "whitewater" ]

/-- Constant `UWASH_HINTS` from `arxiv_digest.py`. -/
def UWASH_HINTS : List String :=
  [ "university of washington", "uw seattle", "seattle, wa", "seattle wa",
    "washington, seattle", "dept. of astronomy, university of washington" ]

/-- Function `is_uw_madison_affiliation` from `arxiv_digest.py`: deny-lists first
(namesake institution, then sibling campuses), then the pattern match. -/
def is_uw_madison_affiliation (affiliation : String) : Bool :=
  if affiliation = "" then false
  else
    let aff_lower := strLower affiliation
    if UWASH_HINTS.any (fun h => containsStr h aff_lower) then false
    else if OTHER_UW_CAMPUSES.any (fun campus => containsStr campus aff_lower) then false
    else regexSearchWB UW_MADISON_REGEX affiliation

/-! ### Spec-side definitions

These follow the words of the specification (not the code) and exist to be
compared with the code-derived definitions above. -/

/-- Python `str.strip()` restricted to ASCII whitespace: drop whitespace
from both ends. -/
def trimStr (s : String) : String :=
  ⟨((s.data.dropWhile isPySpace).reverse.dropWhile isPySpace).reverse⟩

/-- Modelled from the spec: §4.3's name normalization — "normalize every
author name (lower-case, strip periods/commas, trim whitespace)". -/
def normalizeName (s : String) : String :=
  trimStr ⟨(strLower s).data.filter (fun c => (c != '.') && (c != ','))⟩

/-- Modelled from the spec: the identifier-to-name-variant mapping of §4.3
is absent from the code, which never consults author names for priority
detection.  The normalized variants below are built from the author names
recorded beside `PRIORITY_ORCIDS` in the source, in both "First Last" and
"Last First" order. -/
def PRIORITY_NAME_VARIANTS : List String :=
  [ "ritvik sai narayan", "narayan ritvik sai",
    "melinda soares-furtado", "soares-furtado melinda",
    "julia sheffler", "sheffler julia",
    "andrew vanderburg", "vanderburg andrew" ]

/-- Modelled from the spec: `isPriority` as §4.3/§8 state it — identifier
intersection with the priority list OR a normalized author name matching a
priority name variant. -/
def claimed_is_priority (p : Paper) : Bool :=
  (get_paper_orcids p).any (fun o => PRIORITY_ORCIDS.contains o)
    || p.author.any (fun a => PRIORITY_NAME_VARIANTS.contains (normalizeName a))

/-- The names `get_priority_authors` collects from one identifier field
(spec-shaped reformulation): positions carrying a priority ORCID that are
valid author indices, in ascending position order, with duplicates kept. -/
def matchedNames (authors : List String) : Nat → List String → List String
  | _, [] => []
  | i, o :: rest =>
    if PRIORITY_ORCIDS.contains o ∧ i < authors.length then
      authors.getD i "" :: matchedNames authors (i + 1) rest
    else matchedNames authors (i + 1) rest

/-- De-duplicate a list keeping first occurrences. -/
def dedupFirst (l : List String) : List String := l.foldl insertName []

/-! ### Concrete records used by counterexamples and witnesses -/

/-- A record whose only priority signal is an author name (no identifiers
at all): the spec's name fallback would flag it, the code does not. -/
def cexC1 : Paper := { author := ["Vanderburg, Andrew"] }

/-- The §8 misalignment scenario: `orcid_pub` has a priority ORCID at
position 2 but there are only two authors. -/
def cexC8 : Paper :=
  { author := ["X", "Y"], orcid_pub := ["-", "-", "0000-0001-7246-5438"] }

/-- Two priority matches whose author positions invert the field order:
`orcid_pub` matches author 1 ("Beta"), `orcid_user` matches author 0
("Alpha"), so the code returns ["Beta", "Alpha"]. -/
def cexC9 : Paper :=
  { author := ["Alpha", "Beta"],
    orcid_pub := ["-", "0000-0001-7246-5438"],
    orcid_user := ["0000-0001-7493-7419"] }

/-- The §8 scoring scenario record. -/
def paperC6 : Paper := { title := ["Gyrochronology of NGC 188"], abstract := "" }

/-! ### Helper lemmas -/

/-- Two booleans are equal when their truth values agree. -/
lemma bool_eq_of_iff {x y : Bool} (h : x = true ↔ y = true) : x = y := by
  cases x <;> cases y <;> simp_all

lemma mem_insertName {acc : List String} {n a : String}
    (h : a ∈ insertName acc n) : a ∈ acc ∨ a = n := by
  unfold insertName at h
  split at h
  · exact .inl h
  · rcases List.mem_append.mp h with h' | h'
    · exact .inl h'
    · exact .inr (List.mem_singleton.mp h')

lemma mem_setInsert {s : List String} {o a : String} :
    a ∈ setInsert s o ↔ a ∈ s ∨ a = o := by
  unfold setInsert
  split <;> rename_i hc
  · replace hc := List.mem_of_elem_eq_true hc
    constructor
    · exact .inl
    · rintro (h | rfl) <;> [exact h; exact hc]
  · simp [List.mem_append]

lemma mem_orcid_foldl : ∀ (l s : List String) (a : String),
    (a ∈ l.foldl (fun s o => if o = "" ∨ o = "-" then s else setInsert s o) s)
      ↔ (a ∈ s ∨ (a ∈ l ∧ a ≠ "" ∧ a ≠ "-")) := by
  intro l
  induction l with
  | nil => simp
  | cons o rest ih =>
    intro s a
    simp only [List.foldl_cons]
    split <;> rename_i ho
    · rw [ih]
      constructor
      · rintro (h | h)
        · exact .inl h
        · exact .inr ⟨List.mem_cons_of_mem _ h.1, h.2⟩
      · rintro (h | ⟨hm, h2, h3⟩)
        · exact .inl h
        · rcases List.mem_cons.mp hm with rfl | hm'
          · rcases ho with rfl | rfl <;> simp_all
          · exact .inr ⟨hm', h2, h3⟩
    · rw [ih]
      push_neg at ho
      constructor
      · rintro (h | h)
        · rcases mem_setInsert.mp h with h' | rfl
          · exact .inl h'
          · exact .inr ⟨List.mem_cons_self _ _, ho⟩
        · exact .inr ⟨List.mem_cons_of_mem _ h.1, h.2⟩
      · rintro (h | ⟨hm, h2, h3⟩)
        · exact .inl (mem_setInsert.mpr (.inl h))
        · rcases List.mem_cons.mp hm with rfl | hm'
          · exact .inl (mem_setInsert.mpr (.inr rfl))
          · exact .inr ⟨hm', h2, h3⟩

lemma mem_get_paper_orcids {p : Paper} {a : String} :
    a ∈ get_paper_orcids p
      ↔ (a ∈ p.orcid_pub ++ p.orcid_user ++ p.orcid_other ∧ a ≠ "" ∧ a ≠ "-") := by
  unfold get_paper_orcids
  rw [mem_orcid_foldl]
  simp

lemma addMatches_eq : ∀ (authors os : List String) (i : Nat) (acc : List String),
    addMatches authors i os acc = (matchedNames authors i os).foldl insertName acc := by
  intro authors os
  induction os with
  | nil => intro i acc; rfl
  | cons o rest ih =>
    intro i acc
    unfold addMatches matchedNames
    split <;> simp [ih]

lemma getD_mem_of_lt {l : List String} {i : Nat} (h : i < l.length) :
    l.getD i "" ∈ l := by
  rw [List.getD_eq_getElem l "" h]
  exact List.getElem_mem h

lemma mem_addMatches : ∀ (authors os : List String) (i : Nat) (acc : List String)
    (a : String), a ∈ addMatches authors i os acc → a ∈ acc ∨ a ∈ authors := by
  intro authors os
  induction os with
  | nil => intro i acc a h; exact .inl h
  | cons o rest ih =>
    intro i acc a h
    unfold addMatches at h
    split at h <;> rename_i hcond
    · rcases ih _ _ _ h with h' | h'
      · rcases mem_insertName h' with h'' | rfl
        · exact .inl h''
        · exact .inr (getD_mem_of_lt hcond.2)
      · exact .inr h'
    · exact ih _ _ _ h

/-! ### Claims -/

/-- C1, counterexample: the claimed biconditional fails on the code.
`cexC1` has no identifier values at all, but its single author name
normalizes to a priority name variant, so the right-hand side of the
claimed "iff" holds while `has_priority_author` returns `false`: the code
has no name-based fallback. -/
theorem C1_counterexample :
    has_priority_author cexC1 = false ∧ claimed_is_priority cexC1 = true := by
  decide

/-- C1, amended: `has_priority_author` returns true iff at least one
non-empty, non-placeholder identifier value across `orcid_pub`,
`orcid_user` and `orcid_other` is in the fixed priority-identifier list;
author names are never consulted.  In particular it returns false whenever
the identifier values are all absent or placeholder, regardless of the
author names. -/
theorem C1_amended : ∀ p : Paper,
    has_priority_author p =
      (p.orcid_pub ++ p.orcid_user ++ p.orcid_other).any
        (fun o => (!(o == "")) && (!(o == "-")) && PRIORITY_ORCIDS.contains o) := by
  intro p
  apply bool_eq_of_iff
  unfold has_priority_author
  simp only [List.any_eq_true, Bool.and_eq_true, Bool.not_eq_true', beq_eq_false_iff_ne,
    ne_eq]
  constructor
  · rintro ⟨o, ho, hc⟩
    have h := mem_get_paper_orcids.mp ho
    exact ⟨o, h.1, ⟨h.2.1, h.2.2⟩, hc⟩
  · rintro ⟨o, ho, ⟨h1, h2⟩, hc⟩
    exact ⟨o, mem_get_paper_orcids.mpr ⟨ho, h1, h2⟩, hc⟩

/-- C9, counterexample: the output order of `get_priority_authors` does not
follow author-list positions.  On `cexC9` the code returns
["Beta", "Alpha"] although "Alpha" precedes "Beta" in the author list, so
the output's author indices are not in ascending order. -/
theorem C9_counterexample :
    ¬ List.Pairwise
        (fun a b => List.indexOf a cexC9.author ≤ List.indexOf b cexC9.author)
        (get_priority_authors cexC9) := by
  decide

/-- C9, amended: `get_priority_authors` returns the matched display names
de-duplicated keeping first occurrences, ordered field-major — all matches
found in `orcid_pub` (by ascending position), then those of `orcid_user`,
then those of `orcid_other` — not by ascending author position across
fields. -/
theorem C9_amended : ∀ p : Paper,
    get_priority_authors p =
      dedupFirst (matchedNames p.author 0 p.orcid_pub
        ++ matchedNames p.author 0 p.orcid_user
        ++ matchedNames p.author 0 p.orcid_other) := by
  intro p
  unfold get_priority_authors dedupFirst
  rw [addMatches_eq, addMatches_eq, addMatches_eq, List.foldl_append, List.foldl_append]

/-- C8: name recovery in `get_priority_authors` only ever uses valid author
indices (every returned name is an element of the record's author list), and
on the §8 misalignment scenario `cexC8` — a priority ORCID at position 2
with only two authors — the function returns no names while
`has_priority_author` still reports true from the identifier match; both
functions are total, so no out-of-bounds error can occur. -/
theorem C8_no_out_of_bounds :
    (∀ (p : Paper) (name : String),
        name ∈ get_priority_authors p → name ∈ p.author)
    ∧ get_priority_authors cexC8 = []
    ∧ has_priority_author cexC8 = true := by
  refine ⟨?_, by decide, by decide⟩
  intro p name h
  unfold get_priority_authors at h
  rcases mem_addMatches _ _ _ _ _ h with h' | h'
  · rcases mem_addMatches _ _ _ _ _ h' with h'' | h''
    · rcases mem_addMatches _ _ _ _ _ h'' with h''' | h'''
      · simp at h'''
      · exact h'''
    · exact h''
  · exact h'

/-- C6: `get_relevance_tier` assigns the labels by inclusive lower-bound
bands evaluated in descending order ("MUST READ" iff score ≥ 20, "RELEVANT"
iff 10 ≤ score < 20, "SOMEWHAT RELEVANT" iff 2 ≤ score < 10, "GENERAL" iff
score < 2), and the §8 scenario record — title "Gyrochronology of NGC 188",
empty abstract — scores exactly 20 (15 for high-value "gyrochronology" in
the title plus 5 for standard "NGC 188" in the title) and is tiered
"MUST READ". -/
theorem C6_tier_bands :
    (∀ s : Int,
        ((get_relevance_tier s).2.2.1 = "MUST READ" ↔ 20 ≤ s)
      ∧ ((get_relevance_tier s).2.2.1 = "RELEVANT" ↔ 10 ≤ s ∧ s < 20)
      ∧ ((get_relevance_tier s).2.2.1 = "SOMEWHAT RELEVANT" ↔ 2 ≤ s ∧ s < 10)
      ∧ ((get_relevance_tier s).2.2.1 = "GENERAL" ↔ s < 2))
    ∧ calculate_relevance_score paperC6 = 20
    ∧ (get_relevance_tier (calculate_relevance_score paperC6)).2.2.1 = "MUST READ" := by
  refine ⟨?_, by decide, by decide⟩
  intro s
  by_cases h1 : 20 ≤ s
  · rw [get_relevance_tier, if_pos h1]
    exact ⟨iff_of_true rfl h1, iff_of_false (by decide) (by omega),
      iff_of_false (by decide) (by omega), iff_of_false (by decide) (by omega)⟩
  · by_cases h2 : 10 ≤ s
    · rw [get_relevance_tier, if_neg h1, if_pos h2]
      exact ⟨iff_of_false (by decide) (by omega), iff_of_true rfl (by omega),
        iff_of_false (by decide) (by omega), iff_of_false (by decide) (by omega)⟩
    · by_cases h3 : 2 ≤ s
      · rw [get_relevance_tier, if_neg h1, if_neg h2, if_pos h3]
        exact ⟨iff_of_false (by decide) (by omega), iff_of_false (by decide) (by omega),
          iff_of_true rfl (by omega), iff_of_false (by decide) (by omega)⟩
      · rw [get_relevance_tier, if_neg h1, if_neg h2, if_neg h3]
        exact ⟨iff_of_false (by decide) (by omega), iff_of_false (by decide) (by omega),
          iff_of_false (by decide) (by omega), iff_of_true rfl (by omega)⟩

/-- Spec-side per-keyword contribution of a high-value keyword (§4.2):
+15 if the phrase occurs in the title, else +10 if it occurs in the
abstract, else 0 — never both.  `title` and `abstract` are already
lower-cased. -/
def hvContrib (title abstract : String) (kw : String) : Int :=
  if containsStr (strLower kw) title then 15
  else if containsStr (strLower kw) abstract then 10
  else 0

/-- Spec-side per-keyword contribution of a standard keyword (§4.2):
+5 in title, else +3 in abstract, else 0. -/
def stdContrib (title abstract : String) (kw : String) : Int :=
  if containsStr (strLower kw) title then 5
  else if containsStr (strLower kw) abstract then 3
  else 0

lemma score_fold1 (title abstract : String) : ∀ (l : List String) (init : Int),
    (l.foldl (fun acc kw =>
        if containsStr (strLower kw) title then acc + 15
        else if containsStr (strLower kw) abstract then acc + 10
        else acc) init)
      = init + (l.map (hvContrib title abstract)).sum := by
  intro l
  induction l with
  | nil => simp
  | cons x t ih =>
    intro init
    simp only [List.foldl_cons, List.map_cons, List.sum_cons, ih]
    unfold hvContrib
    split
    · ring
    · split
      · ring
      · ring

lemma score_fold2 (title abstract : String) : ∀ (l : List String) (init : Int),
    (l.foldl (fun acc kw =>
        if HIGH_VALUE_LOWER.contains (strLower kw) then acc
        else if containsStr (strLower kw) title then acc + 5
        else if containsStr (strLower kw) abstract then acc + 3
        else acc) init)
      = init + ((l.filter (fun kw => !HIGH_VALUE_LOWER.contains (strLower kw))).map
          (stdContrib title abstract)).sum := by
  intro l
  induction l with
  | nil => simp
  | cons x t ih =>
    intro init
    rw [List.foldl_cons]
    by_cases hm : HIGH_VALUE_LOWER.contains (strLower x) = true
    · have hcnd : ¬ ((!HIGH_VALUE_LOWER.contains (strLower x)) = true) := by
        rw [hm]; decide
      rw [if_pos hm, List.filter_cons, if_neg hcnd, ih]
    · have hm' : HIGH_VALUE_LOWER.contains (strLower x) = false := by
        revert hm; cases HIGH_VALUE_LOWER.contains (strLower x) <;> simp
      have hcnd : (!HIGH_VALUE_LOWER.contains (strLower x)) = true := by
        rw [hm']; rfl
      rw [if_neg hm, List.filter_cons, if_pos hcnd, List.map_cons, List.sum_cons]
      by_cases h5 : containsStr (strLower x) title = true
      · rw [if_pos h5, ih,
          show stdContrib title abstract x = 5 by unfold stdContrib; rw [if_pos h5]]
        ring
      · by_cases h3 : containsStr (strLower x) abstract = true
        · rw [if_neg h5, if_pos h3, ih,
            show stdContrib title abstract x = 3 by
              unfold stdContrib; rw [if_neg h5, if_pos h3]]
          ring
        · rw [if_neg h5, if_neg h3, ih,
            show stdContrib title abstract x = 0 by
              unfold stdContrib; rw [if_neg h5, if_neg h3]]
          ring

/-- C2: the relevance score is exactly the sum of the high-value keyword
contributions (+15 title / else +10 abstract / else 0), plus the sum of the
standard keyword contributions (+5 / +3 / 0) over the standard keywords not
also present in the high-value tier (so a keyword in both tiers counts only
at its high-value weight), plus a flat +25 when the priority-author
detector fires. -/
theorem C2_relevance_score_formula : ∀ p : Paper,
    calculate_relevance_score p =
      (HIGH_VALUE_KEYWORDS.map
          (hvContrib (strLower (p.title.headD "")) (strLower p.abstract))).sum
      + ((TOPIC_KEYWORDS.filter
            (fun kw => !HIGH_VALUE_LOWER.contains (strLower kw))).map
          (stdContrib (strLower (p.title.headD "")) (strLower p.abstract))).sum
      + (if has_priority_author p then 25 else 0) := by
  intro p
  simp only [calculate_relevance_score]
  rw [score_fold2, score_fold1]
  ring

/-- C5: the affiliation matcher returns false on empty input; any
namesake-institution hint or sibling-campus substring in the lower-cased
affiliation forces false regardless of all other content (deny-list
precedence, short-circuiting the allow patterns); otherwise the result is
exactly whether some UW–Madison pattern rule matches.  The three §8
scenarios behave as specified: the Madison affiliation matches, the
Milwaukee and the University of Washington affiliations do not. -/
theorem C5_affiliation_matcher :
    is_uw_madison_affiliation "" = false
    ∧ (∀ aff : String,
        (UWASH_HINTS.any (fun h => containsStr h (strLower aff))
          || OTHER_UW_CAMPUSES.any (fun campus => containsStr campus (strLower aff))) = true →
        is_uw_madison_affiliation aff = false)
    ∧ (∀ aff : String, aff ≠ "" →
        UWASH_HINTS.any (fun h => containsStr h (strLower aff)) = false →
        OTHER_UW_CAMPUSES.any (fun campus => containsStr campus (strLower aff)) = false →
        is_uw_madison_affiliation aff = regexSearchWB UW_MADISON_REGEX aff)
    ∧ is_uw_madison_affiliation "Dept. of Astronomy, University of Wisconsin–Madison" = true
    ∧ is_uw_madison_affiliation "University of Wisconsin-Milwaukee" = false
    ∧ is_uw_madison_affiliation
        "Department of Astronomy, University of Washington, Seattle, WA" = false := by
  refine ⟨by decide, ?_, ?_, by decide, by decide, by decide⟩
  · intro aff hdeny
    unfold is_uw_madison_affiliation
    by_cases he : aff = ""
    · rw [if_pos he]
    · rw [if_neg he]
      rcases (by simpa using hdeny :
          UWASH_HINTS.any (fun h => containsStr h (strLower aff)) = true
          ∨ OTHER_UW_CAMPUSES.any (fun campus => containsStr campus (strLower aff)) = true)
        with h | h
      · rw [if_pos h]
      · by_cases hw : UWASH_HINTS.any (fun h => containsStr h (strLower aff)) = true
        · rw [if_pos hw]
        · rw [if_neg hw, if_pos h]
  · intro aff he hw hc
    unfold is_uw_madison_affiliation
    rw [if_neg he, if_neg (by rw [hw]; decide), if_neg (by rw [hc]; decide)]

/-! ### Association-list lemmas for `merge_unique_by_bibcode` -/

lemma mem_insertByKey : ∀ (acc : List (String × Paper)) (bc : String) (p : Paper)
    (kv : String × Paper), kv ∈ insertByKey acc bc p → kv ∈ acc ∨ kv = (bc, p) := by
  intro acc
  induction acc with
  | nil =>
    intro bc p kv h
    simp only [insertByKey, List.mem_singleton] at h
    exact .inr h
  | cons hd t ih =>
    intro bc p kv h
    rcases hd with ⟨k, q⟩
    unfold insertByKey at h
    split at h
    · rcases List.mem_cons.mp h with rfl | h'
      · exact .inr rfl
      · exact .inl (List.mem_cons_of_mem _ h')
    · rcases List.mem_cons.mp h with rfl | h'
      · exact .inl (List.mem_cons_self _ _)
      · rcases ih _ _ _ h' with h'' | h''
        · exact .inl (List.mem_cons_of_mem _ h'')
        · exact .inr h''

/-- Every pair the merge fold accumulates is consistent: its value's bibcode
is `some` of its key and the key is non-empty. -/
lemma foldl_mstep_inv : ∀ (l : List Paper) (acc : List (String × Paper)),
    (∀ kv ∈ acc, kv.2.bibcode = some kv.1 ∧ kv.1 ≠ "") →
    ∀ kv ∈ l.foldl mstep acc, kv.2.bibcode = some kv.1 ∧ kv.1 ≠ "" := by
  intro l
  induction l with
  | nil => intro acc hacc kv h; exact hacc kv h
  | cons p t ih =>
    intro acc hacc kv h
    rw [List.foldl_cons] at h
    refine ih (mstep acc p) ?_ kv h
    intro kv' h'
    simp only [mstep] at h'
    split at h' <;> rename_i hbc
    · exact hacc kv' h'
    · rcases mem_insertByKey _ _ _ _ h' with h'' | rfl
      · exact hacc kv' h''
      · refine ⟨?_, hbc⟩
        rcases hB : p.bibcode with _ | bc
        · rw [hB] at hbc; simp at hbc
        · simp [hB]

/-- C10: `merge_unique_by_bibcode` silently drops every record whose
bibcode is missing (`None`) or empty: every record in the output carries a
non-empty bibcode, so a record without one never appears there (and the
function is total — no error is raised). -/
theorem C10_falsy_bibcodes_dropped : ∀ (l : List Paper) (p : Paper),
    p ∈ merge_unique_by_bibcode l → ∃ bc, p.bibcode = some bc ∧ bc ≠ "" := by
  intro l p h
  unfold merge_unique_by_bibcode at h
  rcases List.mem_map.mp h with ⟨kv, hmem, rfl⟩
  have hkv := foldl_mstep_inv l [] (by simp) kv hmem
  exact ⟨kv.1, hkv.1, hkv.2⟩

/-- A record with a real bibcode. -/
def pW1 : Paper := { bibcode := some "2024arXiv240101001N" }

/-- A record with no bibcode. -/
def pW2 : Paper := { bibcode := none }

/-- A record with an empty bibcode. -/
def pW3 : Paper := { bibcode := some "" }

/-- Witness for C10 at a concrete input: merging a batch containing a real,
a missing and an empty bibcode keeps the real one, whose bibcode is indeed
non-empty. -/
theorem C10_falsy_bibcodes_dropped_witness :
    pW1 ∈ merge_unique_by_bibcode [pW1, pW2, pW3]
    ∧ ∃ bc, pW1.bibcode = some bc ∧ bc ≠ "" :=
  ⟨by decide, C10_falsy_bibcodes_dropped [pW1, pW2, pW3] pW1 (by decide)⟩

lemma insertByKey_of_not_mem : ∀ (acc : List (String × Paper)) (bc : String)
    (p : Paper), bc ∉ acc.map Prod.fst → insertByKey acc bc p = acc ++ [(bc, p)] := by
  intro acc
  induction acc with
  | nil => intro bc p _; rfl
  | cons hd t ih =>
    intro bc p h
    rcases hd with ⟨k, q⟩
    simp only [List.map_cons, List.mem_cons] at h
    push_neg at h
    unfold insertByKey
    rw [if_neg (by exact fun hk => h.1 hk.symm), ih _ _ h.2]
    rfl

lemma keys_insertByKey : ∀ (acc : List (String × Paper)) (bc : String) (p : Paper),
    (insertByKey acc bc p).map Prod.fst =
      if bc ∈ acc.map Prod.fst then acc.map Prod.fst
      else acc.map Prod.fst ++ [bc] := by
  intro acc
  induction acc with
  | nil => intro bc p; simp [insertByKey]
  | cons hd t ih =>
    intro bc p
    rcases hd with ⟨k, q⟩
    unfold insertByKey
    split <;> rename_i hk
    · rw [if_pos (by simp [hk])]
      simp [hk]
    · simp only [List.map_cons, ih]
      by_cases hmem : bc ∈ t.map Prod.fst
      · rw [if_pos hmem, if_pos (by simp [hmem])]
      · rw [if_neg hmem, if_neg (by simp [hmem]; exact fun h => hk h.symm)]
        simp

lemma nodup_keys_insertByKey {acc : List (String × Paper)} {bc : String} {p : Paper}
    (h : (acc.map Prod.fst).Nodup) : ((insertByKey acc bc p).map Prod.fst).Nodup := by
  rw [keys_insertByKey]
  split <;> rename_i hmem
  · exact h
  · simp [List.nodup_append, h, hmem]

lemma nodup_keys_foldl_mstep : ∀ (l : List Paper) (acc : List (String × Paper)),
    (acc.map Prod.fst).Nodup → ((l.foldl mstep acc).map Prod.fst).Nodup := by
  intro l
  induction l with
  | nil => intro acc h; exact h
  | cons p t ih =>
    intro acc h
    rw [List.foldl_cons]
    refine ih _ ?_
    simp only [mstep]
    split
    · exact h
    · exact nodup_keys_insertByKey h

lemma filter_keys_nil : ∀ (acc : List (String × Paper)) (bc : String),
    bc ∉ acc.map Prod.fst → acc.filter (fun kv => kv.1 == bc) = [] := by
  intro acc bc h
  rw [List.filter_eq_nil_iff]
  intro kv hkv
  simp only [beq_iff_eq]
  intro hk
  exact h (hk ▸ List.mem_map_of_mem Prod.fst hkv)

lemma filter_insertByKey_self : ∀ (acc : List (String × Paper)) (bc : String)
    (p : Paper), (acc.map Prod.fst).Nodup →
    (insertByKey acc bc p).filter (fun kv => kv.1 == bc) = [(bc, p)] := by
  intro acc
  induction acc with
  | nil => intro bc p _; simp [insertByKey]
  | cons hd t ih =>
    intro bc p hnd
    rcases hd with ⟨k, q⟩
    simp only [List.map_cons, List.nodup_cons] at hnd
    unfold insertByKey
    split <;> rename_i hk
    · rw [List.filter_cons, if_pos (by simp)]
      rw [filter_keys_nil t bc (by rw [← hk]; exact hnd.1)]
    · rw [List.filter_cons, if_neg (by simp [hk]), ih _ _ hnd.2]

lemma filter_insertByKey_other : ∀ (acc : List (String × Paper)) (kb : String)
    (p : Paper) (bc : String), bc ≠ kb →
    (insertByKey acc kb p).filter (fun kv => kv.1 == bc)
      = acc.filter (fun kv => kv.1 == bc) := by
  intro acc
  induction acc with
  | nil =>
    intro kb p bc h
    have hcond : ¬ ((kb == bc) = true) := by
      simp only [beq_iff_eq]
      exact fun hk => h hk.symm
    unfold insertByKey
    rw [List.filter_cons, if_neg hcond]
  | cons hd t ih =>
    intro kb p bc h
    rcases hd with ⟨k, q⟩
    unfold insertByKey
    split <;> rename_i hk
    · subst hk
      have hcond : ¬ ((k == bc) = true) := by
        simp only [beq_iff_eq]
        exact fun hkk => h hkk.symm
      rw [List.filter_cons, List.filter_cons, if_neg hcond, if_neg hcond]
    · rw [List.filter_cons, List.filter_cons, ih _ _ _ h]

/-- The filtered content of the merge fold at a non-empty key `bc`: the pair
`(bc, last input record carrying bc)`, or the accumulator's own content when
no input record carries `bc`. -/
lemma foldl_mstep_filter : ∀ (l : List Paper) (acc : List (String × Paper))
    (bc : String), bc ≠ "" → (acc.map Prod.fst).Nodup →
    (l.foldl mstep acc).filter (fun kv => kv.1 == bc)
      = match (l.filter (fun p => p.bibcode.getD "" == bc)).getLast? with
        | some p => [(bc, p)]
        | none => acc.filter (fun kv => kv.1 == bc) := by
  intro l
  induction l using List.reverseRecOn with
  | nil => intro acc bc hbc hnd; simp
  | append_singleton t p ih =>
    intro acc bc hbc hnd
    rw [List.foldl_append, List.foldl_cons, List.foldl_nil, List.filter_append]
    have hndA := nodup_keys_foldl_mstep t acc hnd
    simp only [mstep]
    split <;> rename_i hb
    · -- falsy bibcode: the record is dropped by the fold and filtered out on
      -- the input side as well
      have hp : (p.bibcode.getD "" == bc) = false := by
        rw [hb]
        exact beq_eq_false_iff_ne.mpr (fun h => hbc h.symm)
      rw [ih acc bc hbc hnd]
      simp [List.filter_cons, hp]
    · by_cases heq : p.bibcode.getD "" = bc
      · rw [heq, filter_insertByKey_self _ _ _ hndA]
        have hp : (p.bibcode.getD "" == bc) = true := by simp [heq]
        simp [List.filter_cons, hp, List.getLast?_concat]
      · rw [filter_insertByKey_other _ _ _ _ (fun h => heq h.symm), ih acc bc hbc hnd]
        have hp : (p.bibcode.getD "" == bc) = false := beq_eq_false_iff_ne.mpr heq
        simp [List.filter_cons, hp]

/-- C4: merging flattened batches de-duplicates by bibcode with last-seen
wins: for every non-empty bibcode, the records of the merged output carrying
it are exactly the last input record carrying it (so each bibcode occurs at
most once, exactly once when present in the input). -/
theorem C4_merge_dedupes_last_wins : ∀ (batches : List (List Paper)) (bc : String),
    bc ≠ "" →
    (merge_unique_by_bibcode batches.flatten).filter
        (fun p => p.bibcode.getD "" == bc)
      = ((batches.flatten.filter (fun p => p.bibcode.getD "" == bc)).getLast?).toList := by
  intro batches bc hbc
  unfold merge_unique_by_bibcode
  rw [List.filter_map]
  have hcong : (batches.flatten.foldl mstep []).filter
        ((fun p => p.bibcode.getD "" == bc) ∘ Prod.snd)
      = (batches.flatten.foldl mstep []).filter (fun kv => kv.1 == bc) := by
    apply List.filter_congr
    intro kv hkv
    have hkv' := foldl_mstep_inv batches.flatten [] (by simp) kv hkv
    simp [Function.comp, hkv'.1]
  rw [hcong, foldl_mstep_filter batches.flatten [] bc hbc (by simp)]
  cases hL : (batches.flatten.filter (fun p => p.bibcode.getD "" == bc)).getLast? with
  | none => simp
  | some p => simp

/-- First copy of the duplicated record: no abstract. -/
def pDup1 : Paper := { bibcode := some "2024ApJ...42..7S" }

/-- Second copy of the duplicated record: populated abstract. -/
def pDup2 : Paper :=
  { bibcode := some "2024ApJ...42..7S", abstract := "A populated abstract." }

/-- Witness for C4 at the §8 scenario: two batches both contain a record
with the same bibcode, one with a populated abstract and one without; the
merged result contains exactly that bibcode once, represented by the
last-seen copy. -/
theorem C4_merge_dedupes_last_wins_witness :
    (merge_unique_by_bibcode [[pDup1], [pDup2]].flatten).filter
        (fun p => p.bibcode.getD "" == "2024ApJ...42..7S")
      = (([[pDup1], [pDup2]].flatten.filter
            (fun p => p.bibcode.getD "" == "2024ApJ...42..7S")).getLast?).toList
    ∧ (merge_unique_by_bibcode [[pDup1], [pDup2]].flatten).filter
        (fun p => p.bibcode.getD "" == "2024ApJ...42..7S") = [pDup2] :=
  ⟨C4_merge_dedupes_last_wins [[pDup1], [pDup2]] "2024ApJ...42..7S" (by decide),
   by decide⟩

/-! ### Order lemmas for the composite sort key -/

lemma lexLe_refl : ∀ a : Int × Int × Int, lexLe a a = true := by
  rintro ⟨a1, a2, a3⟩
  simp [lexLe]

lemma lexLe_total : ∀ a b : Int × Int × Int, (lexLe a b || lexLe b a) = true := by
  rintro ⟨a1, a2, a3⟩ ⟨b1, b2, b3⟩
  simp only [lexLe, Bool.or_eq_true, Bool.and_eq_true, decide_eq_true_eq]
  omega

lemma lexLe_trans : ∀ a b c : Int × Int × Int,
    lexLe a b = true → lexLe b c = true → lexLe a c = true := by
  rintro ⟨a1, a2, a3⟩ ⟨b1, b2, b3⟩ ⟨c1, c2, c3⟩
  simp only [lexLe, Bool.or_eq_true, Bool.and_eq_true, decide_eq_true_eq]
  omega

lemma paperLe_total : ∀ x y : Paper, (paperLe x y || paperLe y x) = true :=
  fun x y => lexLe_total (keyN y) (keyN x)

lemma paperLe_trans : ∀ x y z : Paper,
    paperLe x y = true → paperLe y z = true → paperLe x z = true :=
  fun _ _ _ h1 h2 => lexLe_trans _ _ _ h2 h1

/-- C3: `sort_papers` permutes its input into an order in which every record
is `paperLe`-before the next — i.e. descending priority flag, then
descending relevance score, then descending parsed publication date — and it
is stable: the records carrying any fixed key keep their relative input
order.  A publication date `strptime` cannot parse, in particular a missing
one, is treated as `datetime.min`, the oldest possible value (and
`parse_pubdate` is total, so no error is ever raised); the final conjunct
evaluates this on ADS's month-precision form "2024-03-00", which `strptime`
rejects. -/
theorem C3_sort_papers_ordered_stable :
    (∀ l : List Paper,
        (sort_papers l).Perm l
      ∧ List.Pairwise (fun p q => paperLe p q = true) (sort_papers l)
      ∧ ∀ k : Int × Int × Int,
          (sort_papers l).filter (fun p => keyN p == k)
            = l.filter (fun p => keyN p == k))
    ∧ (∀ p : Paper,
        strptimeYMD ((p.pubdate.getD "").take 10) = none →
          parse_pubdate p = datetime_min)
    ∧ (∀ p : Paper, p.pubdate = none → parse_pubdate p = datetime_min)
    ∧ parse_pubdate { pubdate := some "2024-03-00" } = datetime_min := by
  refine ⟨?_, ?_, ?_, by decide⟩
  · intro l
    refine ⟨List.mergeSort_perm l paperLe,
      List.sorted_mergeSort paperLe_trans paperLe_total l, ?_⟩
    intro k
    have hc : (l.filter (fun p => keyN p == k)).Pairwise
        (fun a b => paperLe a b = true) := by
      apply List.pairwise_of_forall_mem_list
      intro a ha b hb
      have hak : keyN a = k := by simpa using (List.of_mem_filter ha)
      have hbk : keyN b = k := by simpa using (List.of_mem_filter hb)
      unfold paperLe
      rw [hbk, hak]
      exact lexLe_refl k
    have hsub : List.Sublist (l.filter (fun p => keyN p == k)) (sort_papers l) :=
      List.sublist_mergeSort paperLe_trans paperLe_total hc (List.filter_sublist l)
    have hperm : List.Perm ((sort_papers l).filter (fun p => keyN p == k))
        (l.filter (fun p => keyN p == k)) :=
      (List.mergeSort_perm l paperLe).filter _
    have heq : (l.filter (fun p => keyN p == k)).filter (fun p => keyN p == k)
        = l.filter (fun p => keyN p == k) :=
      List.filter_eq_self.mpr (fun a ha => (List.mem_filter.mp ha).2)
    have hsub2 : List.Sublist (l.filter (fun p => keyN p == k))
        ((sort_papers l).filter (fun p => keyN p == k)) := by
      have h := List.Sublist.filter (fun p => keyN p == k) hsub
      rwa [heq] at h
    exact (hsub2.eq_of_length hperm.length_eq.symm).symm
  · intro p hp
    unfold parse_pubdate
    rw [hp]
  · intro p hp
    unfold parse_pubdate
    rw [hp]
    rfl

/-- When every record has a non-empty bibcode, all the bibcodes are
pairwise distinct and none of them is already a key of the accumulator, the
merge fold appends the records unchanged. -/
lemma foldl_mstep_append_distinct : ∀ (m : List Paper) (acc : List (String × Paper)),
    (∀ p ∈ m, p.bibcode.getD "" ≠ "") →
    m.Pairwise (fun p q => p.bibcode.getD "" ≠ q.bibcode.getD "") →
    (∀ p ∈ m, p.bibcode.getD "" ∉ acc.map Prod.fst) →
    m.foldl mstep acc = acc ++ m.map (fun p => (p.bibcode.getD "", p)) := by
  intro m
  induction m with
  | nil => intro acc _ _ _; simp
  | cons p t ih =>
    intro acc htr hpw hkeys
    rw [List.foldl_cons]
    have hstep : mstep acc p = acc ++ [(p.bibcode.getD "", p)] := by
      simp only [mstep]
      rw [if_neg (htr p (List.mem_cons_self _ _)),
        insertByKey_of_not_mem _ _ _ (hkeys p (List.mem_cons_self _ _))]
    rw [hstep, ih _ (fun q hq => htr q (List.mem_cons_of_mem _ hq))
      (List.Pairwise.of_cons hpw) ?_]
    · simp
    · intro q hq
      rw [List.map_append]
      simp only [List.mem_append, List.map_cons]
      rintro (h | h)
      · exact hkeys q (List.mem_cons_of_mem _ hq) h
      · have hne := (List.pairwise_cons.mp hpw).1 q hq
        simp at h
        exact hne h.symm

/-- A list of records with non-empty, pairwise-distinct bibcodes passes
`merge_unique_by_bibcode` unchanged. -/
lemma merge_unique_eq_self : ∀ m : List Paper,
    (∀ p ∈ m, p.bibcode.getD "" ≠ "") →
    m.Pairwise (fun p q => p.bibcode.getD "" ≠ q.bibcode.getD "") →
    merge_unique_by_bibcode m = m := by
  intro m h1 h2
  unfold merge_unique_by_bibcode
  rw [foldl_mstep_append_distinct m [] h1 h2 (by simp)]
  simp [Function.comp_def]

/-- Every record `merge_unique_by_bibcode` outputs has a non-empty
bibcode. -/
lemma merge_output_truthy : ∀ (l : List Paper) (p : Paper),
    p ∈ merge_unique_by_bibcode l → p.bibcode.getD "" ≠ "" := by
  intro l p h
  unfold merge_unique_by_bibcode at h
  rcases List.mem_map.mp h with ⟨kv, hmem, rfl⟩
  have hkv := foldl_mstep_inv l [] (by simp) kv hmem
  rw [hkv.1]
  exact hkv.2

/-- The records `merge_unique_by_bibcode` outputs have pairwise distinct
bibcodes. -/
lemma merge_output_pairwise : ∀ l : List Paper,
    (merge_unique_by_bibcode l).Pairwise
      (fun p q => p.bibcode.getD "" ≠ q.bibcode.getD "") := by
  intro l
  unfold merge_unique_by_bibcode
  have hnd := nodup_keys_foldl_mstep l [] (by simp)
  have hcons := foldl_mstep_inv l [] (by simp)
  rw [List.pairwise_map]
  have hpw : (l.foldl mstep []).Pairwise (fun kv kv' => kv.1 ≠ kv'.1) :=
    List.pairwise_map.mp hnd
  refine hpw.imp_of_mem ?_
  intro kv kv' hkv hkv' hne
  rw [(hcons kv hkv).1, (hcons kv' hkv').1]
  simpa using hne

/-- C7: the merge-and-sort pipeline is idempotent — merging and sorting a
set of batches, then merging and sorting the result again as a single
batch, returns the identical ordered output. -/
theorem C7_merge_and_sort_idempotent : ∀ batches : List (List Paper),
    mergeAndSort [mergeAndSort batches] = mergeAndSort batches := by
  intro batches
  unfold mergeAndSort
  rw [show ([sort_papers (merge_unique_by_bibcode batches.flatten)] :
      List (List Paper)).flatten
    = sort_papers (merge_unique_by_bibcode batches.flatten) by simp]
  have htr : ∀ p ∈ sort_papers (merge_unique_by_bibcode batches.flatten),
      p.bibcode.getD "" ≠ "" := by
    intro p hp
    exact merge_output_truthy _ p
      (((List.mergeSort_perm _ paperLe).mem_iff).mp hp)
  have hpw : (sort_papers (merge_unique_by_bibcode batches.flatten)).Pairwise
      (fun p q => p.bibcode.getD "" ≠ q.bibcode.getD "") :=
    ((List.mergeSort_perm _ paperLe).pairwise_iff
      (fun h => h.symm)).mpr (merge_output_pairwise _)
  rw [merge_unique_eq_self _ htr hpw]
  exact List.mergeSort_of_sorted
    (List.sorted_mergeSort paperLe_trans paperLe_total _)

end ArxivDigest
